import Mathlib

/-!
Verification of the CleanML result-reshaping and plotting pipeline
(`table.py`, `plot.py`).

The Python dictionaries are embedded as association lists kept in insertion
order (Python 3.7+ dicts preserve insertion order); floating-point metric
values are embedded as exact rationals (`ℚ`); fallible dictionary lookups
(Python `KeyError`) are embedded as `Option`-valued lookups, and functions
whose body can raise a `KeyError` return `Option` and propagate `none`.
Iteration over a Python `set` (whose order is implementation defined) is
embedded as deduplication keeping first occurrences.
-/

namespace CleanML

/-- First-match lookup in an association list: the embedding of a Python
dictionary access `d[k]` returning `none` where Python raises `KeyError`. -/
def assocFind {α β : Type} [DecidableEq α] (l : List (α × β)) (k : α) : Option β :=
  match l with
  | [] => none
  | e :: rest => if e.1 = k then some e.2 else assocFind rest k

theorem assocFind_nil {α β : Type} [DecidableEq α] (k : α) :
    assocFind ([] : List (α × β)) k = none := rfl

theorem assocFind_cons {α β : Type} [DecidableEq α] (e : α × β) (rest : List (α × β)) (k : α) :
    assocFind (e :: rest) k = if e.1 = k then some e.2 else assocFind rest k := rfl

theorem assocFind_append {α β : Type} [DecidableEq α] (l₁ l₂ : List (α × β)) (k : α) :
    assocFind (l₁ ++ l₂) k =
      match assocFind l₁ k with
      | some v => some v
      | none => assocFind l₂ k := by
  induction l₁ with
  | nil => simp [assocFind]
  | cons e rest ih =>
    by_cases h : e.1 = k <;> simp [assocFind, h, ih]

/-- Lookup in an association list filtered by a predicate on keys. -/
theorem assocFind_filter_key {α β : Type} [DecidableEq α]
    (p : α → Bool) (l : List (α × β)) (k : α) :
    assocFind (l.filter (fun e => p e.1)) k =
      if p k then assocFind l k else none := by
  induction l with
  | nil => simp [assocFind]
  | cons e rest ih =>
    by_cases hp : p e.1
    · by_cases hk : e.1 = k
      · subst hk; simp [assocFind, hp, ih]
      · simp [List.filter, hp, assocFind, hk, ih]
    · by_cases hk : e.1 = k
      · subst hk; simp [List.filter, hp, assocFind, ih]
      · simp [List.filter, hp, assocFind, hk, ih]

/-- The embedding of Python's `list({...})` applied to a set comprehension:
deduplication of a list, keeping the first occurrence of each element.
(The iteration order of a Python `set` is implementation defined; this
development fixes first-occurrence order as the modelled order.) -/
def dedupFirst {α : Type} [DecidableEq α] (l : List α) : List α :=
  l.foldl (fun acc x => if x ∈ acc then acc else acc ++ [x]) []

theorem mem_foldl_dedup {α : Type} [DecidableEq α] (l : List α) (acc : List α) (x : α) :
    x ∈ l.foldl (fun acc x => if x ∈ acc then acc else acc ++ [x]) acc ↔ x ∈ acc ∨ x ∈ l := by
  induction l generalizing acc with
  | nil => simp
  | cons y ys ih =>
    by_cases h : y ∈ acc
    · simp only [List.foldl_cons, if_pos h, ih]
      constructor
      · rintro (hx | hx)
        · exact Or.inl hx
        · exact Or.inr (List.mem_cons_of_mem _ hx)
      · rintro (hx | hx)
        · exact Or.inl hx
        · rcases List.mem_cons.mp hx with h' | h'
          · exact Or.inl (h' ▸ h)
          · exact Or.inr h'
    · simp only [List.foldl_cons, if_neg h, ih, List.mem_append, List.mem_singleton,
        List.mem_cons]
      tauto

theorem mem_dedupFirst {α : Type} [DecidableEq α] (l : List α) (x : α) :
    x ∈ dedupFirst l ↔ x ∈ l := by
  unfold dedupFirst
  rw [mem_foldl_dedup]
  simp

/-! ### `table.group` (table.py lines 12–43) -/

/-- The embedding of Python `k.split('/')`: split a string on every `'/'`
character. Agrees with Python on all inputs, including `"".split('/') = [""]`. -/
def splitSlash (s : String) : List String :=
  let r := s.data.foldl
    (fun (acc : List String × String) c =>
      if c = '/' then (acc.1 ++ [acc.2], "") else (acc.1, acc.2.push c)) ([], "")
  r.1 ++ [r.2]

/-- `old_key[idx]` for a slash-delimited key (the grouped-out component,
typically the seed); total with default `""` where Python would raise. -/
def seedOf (k : String) (idx : Nat) : String :=
  (splitSlash k).getD idx ""

/-- `tuple([old_key[i] for i in range(len(old_key)) if i != idx])`:
the key with component `idx` removed. -/
def keyDrop (k : String) (idx : Nat) : List String :=
  (splitSlash k).eraseIdx idx

/-- The metric names excluded from grouping (table.py line 41). -/
def excludedMetrics : List String := ["best_params", "seeds"]

/-- A grouped-result store: insertion-ordered mapping from reduced key to an
insertion-ordered mapping from metric name to the accumulated value list. -/
abbrev GStore := List (List String × List (String × List ℚ))

/-- `if key not in new_result.keys(): new_result[key] = defaultdict(list)`. -/
def touchKey (st : GStore) (k : List String) : GStore :=
  if st.any (fun e => e.1 = k) then st else st ++ [(k, [])]

/-- `new_result[key][vk].append(vv)` on the inner metric dictionary
(`defaultdict(list)` semantics: a missing metric starts from `[]`). -/
def addMetric (ml : List (String × List ℚ)) (m : String) (v : ℚ) :
    List (String × List ℚ) :=
  match ml with
  | [] => [(m, [v])]
  | p :: rest => if p.1 = m then (m, p.2 ++ [v]) :: rest else p :: addMetric rest m v

/-- `new_result[key][vk].append(vv)` on the outer store. -/
def addVal (st : GStore) (k : List String) (m : String) (v : ℚ) : GStore :=
  match st with
  | [] => [(k, [(m, [v])])]
  | e :: rest => if e.1 = k then (k, addMetric e.2 m v) :: rest else e :: addVal rest k m v

/-- `table.group(result, idx)`: combine results from different experiments
into lists, grouping by key component `idx`. `result` maps slash-delimited
keys to metric dictionaries. The Python `set` of seeds is modelled in
first-occurrence order (see `dedupFirst`). -/
def group (result : List (String × List (String × ℚ))) (idx : Nat) : GStore :=
  let seedList := dedupFirst (result.map (fun kv => seedOf kv.1 idx))
  seedList.foldl
    (fun st s =>
      result.foldl
        (fun st kv =>
          if seedOf kv.1 idx = s then
            let key := keyDrop kv.1 idx
            let st' := touchKey st key
            kv.2.foldl
              (fun st p =>
                if p.1 ∈ excludedMetrics then st else addVal st key p.1 p.2) st'
          else st) st) []

/-- Lookup of one metric's accumulated list in a grouped store. -/
def findMetric (st : GStore) (k : List String) (m : String) : Option (List ℚ) :=
  (assocFind st k).bind (fun ml => assocFind ml m)

/-- The order-explicit specification of the value lists `group` produces:
for each seed (in modelled set order), the values of metric `m` contributed
by entries of the group `k` having that seed, in encounter order. -/
def groupSpecVals (result : List (String × List (String × ℚ))) (idx : Nat)
    (k : List String) (m : String) : List ℚ :=
  (dedupFirst (result.map (fun kv => seedOf kv.1 idx))).flatMap
    (fun s =>
      result.flatMap
        (fun kv =>
          if seedOf kv.1 idx = s ∧ keyDrop kv.1 idx = k then
            kv.2.filterMap (fun p => if p.1 = m then some p.2 else none)
          else []))

/-! #### Store-update operations, used to characterise `group`'s nested folds -/

/-- A single mutation `group` performs on its accumulating store. -/
inductive GOp : Type where
  | touch : List String → GOp
  | add : List String → String → ℚ → GOp

/-- Apply one store mutation. -/
def applyOp (st : GStore) : GOp → GStore
  | GOp.touch k => touchKey st k
  | GOp.add k m v => addVal st k m v

/-- The value an operation appends to slot `(k, m)`, if any. -/
def opVal (k : List String) (m : String) : GOp → Option ℚ
  | GOp.touch _ => none
  | GOp.add k' m' v => if k' = k ∧ m' = m then some v else none

/-- All values appended to slot `(k, m)` by a list of operations, in order. -/
def valsIn (ops : List GOp) (k : List String) (m : String) : List ℚ :=
  ops.filterMap (opVal k m)

/-- The store key an operation touches. -/
def opKey : GOp → List String
  | GOp.touch k => k
  | GOp.add k _ _ => k

/-- The operation stream of one `group` loop iteration for one result entry. -/
def entryOps (idx : Nat) (kv : String × List (String × ℚ)) : List GOp :=
  GOp.touch (keyDrop kv.1 idx) ::
    kv.2.filterMap
      (fun p =>
        if p.1 ∈ excludedMetrics then none
        else some (GOp.add (keyDrop kv.1 idx) p.1 p.2))

/-- The full operation stream of `group result idx`. -/
def groupOps (result : List (String × List (String × ℚ))) (idx : Nat) : List GOp :=
  (dedupFirst (result.map (fun kv => seedOf kv.1 idx))).flatMap
    (fun s =>
      result.flatMap
        (fun kv => if seedOf kv.1 idx = s then entryOps idx kv else []))

theorem findMetric_touchKey (st : GStore) (k' k : List String) (m : String) :
    findMetric (touchKey st k') k m = findMetric st k m := by
  unfold touchKey
  by_cases h : st.any (fun e => e.1 = k')
  · simp [h]
  · rw [if_neg h]
    simp only [findMetric]
    rw [assocFind_append]
    cases hf : assocFind st k with
    | some ml => simp
    | none =>
      by_cases hk : k' = k
      · subst hk; simp [assocFind]
      · simp [assocFind, hk]

theorem assocFind_addMetric (ml : List (String × List ℚ)) (m' m : String) (v : ℚ) :
    assocFind (addMetric ml m' v) m =
      if m' = m then some ((assocFind ml m').getD [] ++ [v]) else assocFind ml m := by
  induction ml with
  | nil => by_cases h : m' = m <;> simp [addMetric, assocFind, h]
  | cons p rest ih =>
    by_cases hp : p.1 = m'
    · by_cases hm : m' = m
      · subst hm; simp [addMetric, hp, assocFind]
      · have hpm : p.1 ≠ m := fun h => hm (hp ▸ h)
        simp [addMetric, hp, assocFind, hm, hpm]
    · by_cases hpm : p.1 = m
      · have hm : m' ≠ m := fun h => hp (hpm ▸ h.symm)
        simp [addMetric, hp, assocFind, hpm, hm.symm, hm]
      · simp [addMetric, hp, assocFind, hpm, ih]

theorem findMetric_addVal (st : GStore) (k' k : List String) (m' m : String) (v : ℚ) :
    findMetric (addVal st k' m' v) k m =
      if k' = k ∧ m' = m then some ((findMetric st k m).getD [] ++ [v])
      else findMetric st k m := by
  induction st with
  | nil =>
    by_cases hk : k' = k
    · by_cases hm : m' = m <;> simp [addVal, findMetric, assocFind, hk, hm]
    · simp [addVal, findMetric, assocFind, hk]
  | cons e rest ih =>
    by_cases he : e.1 = k'
    · by_cases hk : k' = k
      · subst hk
        by_cases hm : m' = m
        · subst hm
          simp [addVal, he, findMetric, assocFind, assocFind_addMetric]
        · simp [addVal, he, findMetric, assocFind, assocFind_addMetric, hm]
      · have hek : e.1 ≠ k := fun h => hk (he ▸ h)
        simp [addVal, he, findMetric, assocFind, hk, hek]
    · by_cases hek : e.1 = k
      · have hk : k' ≠ k := fun h => he (hek ▸ h.symm)
        simp [addVal, he, findMetric, assocFind, hek, hk, Ne.symm hk]
      · simpa [addVal, he, findMetric, assocFind, hek] using ih

/-- Characterisation of the slot `(k, m)` after running an operation stream:
the values appended by the stream, after whatever the slot already held. -/
theorem findMetric_foldl (ops : List GOp) (st : GStore) (k : List String) (m : String) :
    findMetric (ops.foldl applyOp st) k m =
      if findMetric st k m = none ∧ valsIn ops k m = [] then none
      else some ((findMetric st k m).getD [] ++ valsIn ops k m) := by
  induction ops generalizing st with
  | nil =>
    cases h : findMetric st k m <;> simp [valsIn, h]
  | cons op ops ih =>
    cases op with
    | touch k' =>
      simp only [List.foldl_cons, applyOp, ih, findMetric_touchKey, valsIn,
        List.filterMap_cons, opVal]
    | add k' m' v =>
      by_cases hc : k' = k ∧ m' = m
      · simp only [List.foldl_cons, applyOp, ih, findMetric_addVal, hc, if_true,
          valsIn, List.filterMap_cons, opVal, if_pos hc]
        cases h : findMetric st k m <;> simp [h]
      · simp only [List.foldl_cons, applyOp, ih, findMetric_addVal, hc, if_false,
          valsIn, List.filterMap_cons, opVal, if_neg hc]

theorem mem_keys_touchKey (st : GStore) (k' k : List String) :
    k ∈ (touchKey st k').map Prod.fst ↔ k ∈ st.map Prod.fst ∨ k = k' := by
  unfold touchKey
  by_cases h : st.any (fun e => e.1 = k')
  · simp only [h, if_true]
    constructor
    · exact Or.inl
    · rintro (hk | hk)
      · exact hk
      · subst hk
        rcases List.any_eq_true.mp h with ⟨e, he, hek⟩
        exact List.mem_map.mpr ⟨e, he, of_decide_eq_true hek⟩
  · simp [h]

theorem mem_keys_addVal (st : GStore) (k' k : List String) (m : String) (v : ℚ) :
    k ∈ (addVal st k' m v).map Prod.fst ↔ k ∈ st.map Prod.fst ∨ k = k' := by
  induction st with
  | nil => simp [addVal]
  | cons e rest ih =>
    by_cases he : e.1 = k'
    · subst he
      simp [addVal]
      tauto
    · simp [addVal, he, ih]
      tauto

theorem mem_keys_foldl (ops : List GOp) (st : GStore) (k : List String) :
    k ∈ (ops.foldl applyOp st).map Prod.fst ↔
      k ∈ st.map Prod.fst ∨ k ∈ ops.map opKey := by
  induction ops generalizing st with
  | nil => simp
  | cons op ops ih =>
    cases op with
    | touch k' =>
      simp only [List.foldl_cons, applyOp, ih, mem_keys_touchKey, List.map_cons, opKey,
        List.mem_cons]
      tauto
    | add k' m v =>
      simp only [List.foldl_cons, applyOp, ih, mem_keys_addVal, List.map_cons, opKey,
        List.mem_cons]
      tauto

theorem foldl_metricOps (l : List (String × ℚ)) (key : List String) (st : GStore) :
    l.foldl (fun st p => if p.1 ∈ excludedMetrics then st else addVal st key p.1 p.2) st =
      (l.filterMap
        (fun p =>
          if p.1 ∈ excludedMetrics then none
          else some (GOp.add key p.1 p.2))).foldl applyOp st := by
  induction l generalizing st with
  | nil => rfl
  | cons p rest ih =>
    by_cases h : p.1 ∈ excludedMetrics
    · simp [h, ih]
    · simp [h, ih, applyOp]

theorem foldl_entryOps (kv : String × List (String × ℚ)) (idx : Nat) (s : String)
    (st : GStore) :
    (if seedOf kv.1 idx = s then
        (kv.2.foldl
          (fun st p =>
            if p.1 ∈ excludedMetrics then st else addVal st (keyDrop kv.1 idx) p.1 p.2)
          (touchKey st (keyDrop kv.1 idx)))
      else st) =
      (if seedOf kv.1 idx = s then entryOps idx kv else []).foldl applyOp st := by
  by_cases h : seedOf kv.1 idx = s
  · simp only [h, if_true, entryOps, List.foldl_cons, applyOp]
    exact foldl_metricOps _ _ _
  · simp [h]

theorem foldl_resultOps (result : List (String × List (String × ℚ))) (idx : Nat)
    (s : String) (st : GStore) :
    result.foldl
      (fun st kv =>
        if seedOf kv.1 idx = s then
          let key := keyDrop kv.1 idx
          let st' := touchKey st key
          kv.2.foldl
            (fun st p => if p.1 ∈ excludedMetrics then st else addVal st key p.1 p.2) st'
        else st) st =
      (result.flatMap
        (fun kv => if seedOf kv.1 idx = s then entryOps idx kv else [])).foldl applyOp st := by
  induction result generalizing st with
  | nil => rfl
  | cons kv rest ih =>
    simp only [List.foldl_cons, List.flatMap_cons, List.foldl_append]
    rw [ih, foldl_entryOps]

theorem group_fold_chain (result : List (String × List (String × ℚ))) (idx : Nat)
    (seedList : List String) (st : GStore) :
    seedList.foldl
      (fun st s =>
        result.foldl
          (fun st kv =>
            if seedOf kv.1 idx = s then
              let key := keyDrop kv.1 idx
              let st' := touchKey st key
              kv.2.foldl
                (fun st p =>
                  if p.1 ∈ excludedMetrics then st else addVal st key p.1 p.2) st'
            else st) st) st =
      (seedList.flatMap
        (fun s =>
          result.flatMap
            (fun kv => if seedOf kv.1 idx = s then entryOps idx kv else []))).foldl
        applyOp st := by
  induction seedList generalizing st with
  | nil => rfl
  | cons s rest ih =>
    simp only [List.foldl_cons, List.flatMap_cons, List.foldl_append]
    rw [foldl_resultOps, ih]

/-- `group` is the sequential application of its operation stream. -/
theorem group_eq_foldl_ops (result : List (String × List (String × ℚ))) (idx : Nat) :
    group result idx = (groupOps result idx).foldl applyOp [] := by
  unfold group groupOps
  exact group_fold_chain result idx _ []

theorem valsIn_append (ops₁ ops₂ : List GOp) (k : List String) (m : String) :
    valsIn (ops₁ ++ ops₂) k m = valsIn ops₁ k m ++ valsIn ops₂ k m := by
  simp [valsIn]

theorem filterMap_ext {α β : Type} (l : List α) (f g : α → Option β)
    (h : ∀ a ∈ l, f a = g a) : l.filterMap f = l.filterMap g := by
  induction l with
  | nil => rfl
  | cons a rest ih =>
    have ha := h a (List.mem_cons_self a rest)
    simp only [List.filterMap_cons, ha, ih (fun b hb => h b (List.mem_cons_of_mem a hb))]

theorem valsIn_entryOps (kv : String × List (String × ℚ)) (idx : Nat)
    (k : List String) (m : String) (hm : m ∉ excludedMetrics) :
    valsIn (entryOps idx kv) k m =
      if keyDrop kv.1 idx = k then
        kv.2.filterMap (fun p => if p.1 = m then some p.2 else none)
      else [] := by
  simp only [valsIn, entryOps, List.filterMap_cons, opVal, List.filterMap_filterMap]
  by_cases hk : keyDrop kv.1 idx = k
  · simp only [hk, if_true]
    apply filterMap_ext
    intro p _
    by_cases hpm : p.1 = m
    · simp [hpm, hm, opVal]
    · by_cases hpe : p.1 ∈ excludedMetrics <;> simp [hpe, opVal, hpm]
  · simp only [hk, if_false]
    apply List.filterMap_eq_nil_iff.mpr
    intro p _
    by_cases hpe : p.1 ∈ excludedMetrics
    · simp [hpe]
    · simp [hpe, opVal, hk]

theorem valsIn_resultFlat (result : List (String × List (String × ℚ))) (idx : Nat)
    (s : String) (k : List String) (m : String) (hm : m ∉ excludedMetrics) :
    valsIn
        (result.flatMap
          (fun kv => if seedOf kv.1 idx = s then entryOps idx kv else [])) k m =
      result.flatMap
        (fun kv =>
          if seedOf kv.1 idx = s ∧ keyDrop kv.1 idx = k then
            kv.2.filterMap (fun p => if p.1 = m then some p.2 else none)
          else []) := by
  induction result with
  | nil => rfl
  | cons kv rrest ihr =>
    simp only [List.flatMap_cons, valsIn_append, ihr]
    congr 1
    by_cases hs : seedOf kv.1 idx = s
    · by_cases hk : keyDrop kv.1 idx = k
      · simp [hs, hk, valsIn_entryOps _ _ _ _ hm]
      · simp [hs, hk, valsIn_entryOps _ _ _ _ hm]
    · simp [hs, valsIn]

/-- The value lists of `group` are exactly `groupSpecVals`. -/
theorem valsIn_groupOps (result : List (String × List (String × ℚ))) (idx : Nat)
    (k : List String) (m : String) (hm : m ∉ excludedMetrics) :
    valsIn (groupOps result idx) k m = groupSpecVals result idx k m := by
  unfold groupOps groupSpecVals
  generalize dedupFirst (result.map (fun kv => seedOf kv.1 idx)) = seedList
  induction seedList with
  | nil => rfl
  | cons s rest ih =>
    simp only [List.flatMap_cons, valsIn_append, ih]
    congr 1
    exact valsIn_resultFlat result idx s k m hm

theorem excluded_valsIn_entryOps (kv : String × List (String × ℚ)) (idx : Nat)
    (k : List String) (m : String) (hm : m ∈ excludedMetrics) :
    valsIn (entryOps idx kv) k m = [] := by
  simp only [valsIn, entryOps, List.filterMap_cons, opVal, List.filterMap_filterMap]
  apply List.filterMap_eq_nil_iff.mpr
  intro p _
  by_cases hpe : p.1 ∈ excludedMetrics
  · simp [hpe]
  · have hpm : p.1 ≠ m := fun h => hpe (h ▸ hm)
    simp [hpe, opVal, hpm]

theorem excluded_valsIn_resultFlat (result : List (String × List (String × ℚ)))
    (idx : Nat) (s : String) (k : List String) (m : String) (hm : m ∈ excludedMetrics) :
    valsIn
        (result.flatMap
          (fun kv => if seedOf kv.1 idx = s then entryOps idx kv else [])) k m = [] := by
  induction result with
  | nil => rfl
  | cons kv rrest ihr =>
    simp only [List.flatMap_cons, valsIn_append, ihr, List.append_nil]
    by_cases hs : seedOf kv.1 idx = s
    · simp [hs, excluded_valsIn_entryOps _ _ _ _ hm]
    · simp [hs, valsIn]

/-- The excluded metric names receive no values anywhere in the stream. -/
theorem excluded_valsIn_groupOps (result : List (String × List (String × ℚ))) (idx : Nat)
    (k : List String) (m : String) (hm : m ∈ excludedMetrics) :
    valsIn (groupOps result idx) k m = [] := by
  unfold groupOps
  generalize dedupFirst (result.map (fun kv => seedOf kv.1 idx)) = seedList
  induction seedList with
  | nil => rfl
  | cons s rest ih =>
    simp only [List.flatMap_cons, valsIn_append, ih, List.append_nil]
    exact excluded_valsIn_resultFlat result idx s k m hm

theorem opKey_mem_entryOps (kv : String × List (String × ℚ)) (idx : Nat) (k : List String) :
    k ∈ (entryOps idx kv).map opKey ↔ k = keyDrop kv.1 idx := by
  constructor
  · intro h
    rcases List.mem_map.mp h with ⟨op, hop, hk⟩
    rcases List.mem_cons.mp hop with h' | h'
    · subst h'; exact hk.symm ▸ rfl
    · rcases List.mem_filterMap.mp h' with ⟨p, _, hp⟩
      by_cases hpe : p.1 ∈ excludedMetrics
      · simp [hpe] at hp
      · simp only [hpe, if_false, Option.some.injEq] at hp
        subst hp
        exact hk ▸ rfl
  · intro h
    subst h
    exact List.mem_map.mpr ⟨GOp.touch (keyDrop kv.1 idx), List.mem_cons_self _ _, rfl⟩

/-- The keys occurring in `group`'s operation stream are exactly the reduced
keys of the input entries. -/
theorem mem_opKey_groupOps (result : List (String × List (String × ℚ))) (idx : Nat)
    (k : List String) :
    k ∈ (groupOps result idx).map opKey ↔ ∃ kv ∈ result, keyDrop kv.1 idx = k := by
  unfold groupOps
  constructor
  · intro h
    rcases List.mem_map.mp h with ⟨op, hop, hk⟩
    rcases List.mem_flatMap.mp hop with ⟨s, _, hop₂⟩
    rcases List.mem_flatMap.mp hop₂ with ⟨kv, hkv, hop₃⟩
    by_cases hs : seedOf kv.1 idx = s
    · rw [if_pos hs] at hop₃
      have : k ∈ (entryOps idx kv).map opKey := List.mem_map.mpr ⟨op, hop₃, hk⟩
      exact ⟨kv, hkv, ((opKey_mem_entryOps kv idx k).mp this).symm⟩
    · rw [if_neg hs] at hop₃
      exact absurd hop₃ (List.not_mem_nil op)
  · rintro ⟨kv, hkv, hk⟩
    have hs : seedOf kv.1 idx ∈ dedupFirst (result.map (fun kv => seedOf kv.1 idx)) :=
      (mem_dedupFirst _ _).mpr (List.mem_map.mpr ⟨kv, hkv, rfl⟩)
    have hop : GOp.touch (keyDrop kv.1 idx) ∈
        (dedupFirst (result.map (fun kv => seedOf kv.1 idx))).flatMap
          (fun s =>
            result.flatMap
              (fun kv => if seedOf kv.1 idx = s then entryOps idx kv else [])) := by
      apply List.mem_flatMap.mpr
      refine ⟨seedOf kv.1 idx, hs, ?_⟩
      apply List.mem_flatMap.mpr
      refine ⟨kv, hkv, ?_⟩
      rw [if_pos rfl]
      exact List.mem_cons_self _ _
    exact List.mem_map.mpr ⟨GOp.touch (keyDrop kv.1 idx), hop, hk ▸ rfl⟩

/-! ### `table.reduce_by_mean` (table.py lines 45–59) -/

/-- `np.mean` on a list of rationals: sum divided by length (the empty list,
where NumPy produces NaN, yields `0/0 = 0` in `ℚ`; the claims about
`reduce_by_mean` only concern non-empty lists). -/
def npMean (l : List ℚ) : ℚ := l.sum / l.length

/-- `table.reduce_by_mean(result)`: replace each metric's accumulated list by
its mean, keeping every key. -/
def reduce_by_mean (result : GStore) : List (List String × List (String × ℚ)) :=
  result.map (fun kv => (kv.1, kv.2.map (fun p => (p.1, npMean p.2))))

/-- Lookup of one metric's reduced value, mirroring `findMetric`. -/
def findReduced (st : List (List String × List (String × ℚ))) (k : List String)
    (m : String) : Option ℚ :=
  (assocFind st k).bind (fun ml => assocFind ml m)

/-! ### Metric selector and dataset metadata (table.py lines 61–70,
plot.py lines 28–37) -/

/-- Modelled from the spec: the per-dataset metadata record that
`utils.get_dataset` returns (utils.py is not part of the sources here).
Per spec §6 it "must expose at least a boolean-like `class_imbalance` flag";
the flag may be absent altogether, which we model with `Option Bool`. -/
structure Dataset : Type where
  name : String
  class_imbalance : Option Bool
deriving DecidableEq, Repr

/-- Modelled from the spec: `utils.get_dataset(dataset_name)` — lookup of a
dataset's metadata record by name in the registry; an unknown dataset name
"surfaces as a lookup failure from the metadata collaborator" (spec §4.2),
modelled as `none`. -/
def get_dataset (registry : List Dataset) (dataset_name : String) : Option Dataset :=
  registry.find? (fun d => d.name = dataset_name)

/-- `table.is_metric_f1(dataset_name)`:
`'class_imbalance' in dataset.keys() and dataset['class_imbalance']`;
`none` when the dataset itself is unknown. -/
def is_metric_f1 (registry : List Dataset) (dataset_name : String) : Option Bool :=
  (get_dataset registry dataset_name).map
    (fun d =>
      match d.class_imbalance with
      | some b => b
      | none => false)

/-- `table.get_metric_name(dataset_name, test_file)`. -/
def get_metric_name (registry : List Dataset) (dataset_name test_file : String) :
    Option String :=
  (is_metric_f1 registry dataset_name).map
    (fun b => if b then test_file ++ "_test_f1" else test_file ++ "_test_acc")

namespace Plot

/-- `plot.is_metric_f1`: the verbatim duplicate in plot.py of
`table.is_metric_f1`. -/
def is_metric_f1 (registry : List Dataset) (dataset_name : String) : Option Bool :=
  (get_dataset registry dataset_name).map
    (fun d =>
      match d.class_imbalance with
      | some b => b
      | none => false)

/-- `plot.get_metric`: the verbatim duplicate in plot.py of
`table.get_metric_name`. -/
def get_metric (registry : List Dataset) (dataset_name test_file : String) :
    Option String :=
  (is_metric_f1 registry dataset_name).map
    (fun b => if b then test_file ++ "_test_f1" else test_file ++ "_test_acc")

end Plot

/-! ### `table.get_four_metrics` (table.py lines 72–89) -/

/-- A reduced-result key `(dataset, split_seed, error_type, train_file, model)`
as destructured in `get_four_metrics`. -/
structure RKey : Type where
  dataset : String
  split_seed : String
  error : String
  train_file : String
  model : String
deriving DecidableEq, Repr

/-- A four-metrics key `(dataset, split_seed, train_file, model, test_file)`. -/
structure FKey : Type where
  dataset : String
  split_seed : String
  train_file : String
  model : String
  test_file : String
deriving DecidableEq, Repr

/-- `table.get_four_metrics(result, error_type, file_types)`: filter to the
error type and the two file types, and extract, for each matching entry, the
metric for each file type used as test set. The metric lookup `v[metric_name]`
can raise `KeyError` in Python; here a missing metric makes the whole call
`none`. The `dict_to_df` reshaping step is kept as the flat keyed collection
(the table and the dictionary hold the same cells). -/
def get_four_metrics (registry : List Dataset) (result : List (RKey × List (String × ℚ)))
    (error_type : String) (file_types : List String) :
    Option (List (FKey × ℚ)) :=
  result.foldl
    (fun acc kv =>
      acc.bind
        (fun out =>
          if kv.1.error = error_type ∧ kv.1.train_file ∈ file_types then
            file_types.foldl
              (fun acc2 test_file =>
                acc2.bind
                  (fun out2 =>
                    (get_metric_name registry kv.1.dataset test_file).bind
                      (fun metric_name =>
                        (assocFind kv.2 metric_name).map
                          (fun metric =>
                            out2 ++
                              [(⟨kv.1.dataset, kv.1.split_seed, kv.1.train_file,
                                  kv.1.model, test_file⟩, metric)]))))
              (some out)
          else some out))
    (some [])

/-! ### `table.compare_four_metrics` (table.py lines 91–119) -/

/-- Modelled from the spec: the `.loc`-selection on the four-metrics table
built by `utils.dict_to_df` (utils.py is not part of the sources here).
`fmLoc fm dataset model train test` is the column of metric values selected by
row prefix `(dataset, train)` and column `(model, test)` — a pandas Series
over the remaining `split_seed` row level, in table order; an empty selection
is a lookup failure (`none`), as `.loc` raises on a missing label. -/
def fmLoc (fm : List (FKey × ℚ)) (dataset model train test : String) :
    Option (List ℚ) :=
  let l := fm.filterMap
    (fun e =>
      if e.1.dataset = dataset ∧ e.1.model = model ∧ e.1.train_file = train ∧
          e.1.test_file = test then
        some e.2
      else none)
  if l.isEmpty then none else some l

/-- The four labelled comparison entries `compare_four_metrics` produces for
one `(dataset, model)` pair, in the dictionary-insertion order of the source:
`AB = compare_method(A, B)`, `CD = compare_method(C, D)`,
`AC = compare_method(A, C)`, `BD = compare_method(B, D)` with
`A = loc[t0, t0]`, `B = loc[t0, t1]`, `C = loc[t1, t0]`, `D = loc[t1, t1]`. -/
def quadEntries {α : Type} (fm : List (FKey × ℚ)) (file_types : List String)
    (compare_method : List ℚ → List ℚ → α) (dataset model : String) :
    Option (List ((String × String × String) × α)) :=
  let t0 := file_types.getD 0 ""
  let t1 := file_types.getD 1 ""
  (fmLoc fm dataset model t0 t0).bind (fun a =>
    (fmLoc fm dataset model t0 t1).bind (fun b =>
      (fmLoc fm dataset model t1 t0).bind (fun c =>
        (fmLoc fm dataset model t1 t1).map (fun d =>
          [((dataset, model, "AB"), compare_method a b),
           ((dataset, model, "CD"), compare_method c d),
           ((dataset, model, "AC"), compare_method a c),
           ((dataset, model, "BD"), compare_method b d)]))))

/-- `table.compare_four_metrics(four_metrics, file_types, compare_method)`:
for each dataset and model (deduplicated level-0 values), apply
`compare_method` to the quadrant pairs (A,B), (C,D), (A,C), (B,D) — in the
dictionary-insertion order of the source — labelled "AB", "CD", "AC", "BD".
`compare_method` receives the two selected Series. -/
def compare_four_metrics {α : Type} (fm : List (FKey × ℚ)) (file_types : List String)
    (compare_method : List ℚ → List ℚ → α) :
    Option (List ((String × String × String) × α)) :=
  (dedupFirst (fm.map (fun e => e.1.dataset))).foldl
    (fun acc dataset =>
      (dedupFirst (fm.map (fun e => e.1.model))).foldl
        (fun acc2 model =>
          acc2.bind
            (fun out =>
              (quadEntries fm file_types compare_method dataset model).map
                (fun es => out ++ es)))
        acc)
    (some [])

/-! ### `table.t_test` (table.py lines 121–126) -/

/-- `table.t_test(a, b)`: truncate both sequences to the shorter length and
hand them to `scipy.stats.ttest_rel`, here abstracted as the parameter
`ttestRel` (an external library collaborator, not code of this repository). -/
def t_test (ttestRel : List ℚ → List ℚ → ℚ × ℚ) (a b : List ℚ) : ℚ × ℚ :=
  let n_a := a.length
  let n_b := b.length
  let n := min n_a n_b
  ttestRel (a.take n) (b.take n)

/-! ### `plot.compute_difference` (plot.py lines 78–85) -/

/-- `plot.compute_difference(evaluation)`: for every non-`'dirty'` key
`(dataset, method, model)`, emit `(v - dirty) / dirty` against the dirty
baseline of the same dataset and model; a missing baseline is a `KeyError`,
modelled as `none` for the whole call. -/
def compute_difference (evaluation : List ((String × String × String) × ℚ)) :
    Option (List ((String × String × String) × ℚ)) :=
  evaluation.foldl
    (fun acc kv =>
      acc.bind
        (fun out =>
          if kv.1.2.1 = "dirty" then some out
          else
            (assocFind evaluation (kv.1.1, "dirty", kv.1.2.2)).map
              (fun d => out ++ [(kv.1, (kv.2 - d) / d)])))
    (some [])

/-! ### `plot.reindex_df` (plot.py lines 66–69) and the table model -/

/-- A two-dimensional labelled table: ordered row labels, ordered column
labels, and the present (non-NaN) cells. A label pair carrying no cell reads
as NaN, modelled as `none`. -/
structure DF : Type where
  rows : List String
  cols : List String
  data : List ((String × String) × ℚ)
deriving DecidableEq, Repr

/-- Read one cell of a table; absent cells (NaN) are `none`. -/
def dfCell (df : DF) (r c : String) : Option ℚ :=
  assocFind df.data (r, c)

/-- A table is well formed when every cell sits under its row and column
labels — every pandas DataFrame satisfies this. -/
def DFwf (df : DF) : Prop :=
  ∀ e ∈ df.data, e.1.1 ∈ df.rows ∧ e.1.2 ∈ df.cols

/-- `df.reindex(index_order, axis=0)`: pandas keeps requested labels that
exist and inserts all-NaN rows for requested labels that do not. -/
def reindexAxis0 (df : DF) (order : List String) : DF :=
  ⟨order, df.cols, df.data.filter (fun e => e.1.1 ∈ order)⟩

/-- `df.reindex(columns_order, axis=1)`. -/
def reindexAxis1 (df : DF) (order : List String) : DF :=
  ⟨df.rows, order, df.data.filter (fun e => e.1.2 ∈ order)⟩

/-- `plot.reindex_df(df, index_order, columns_order)`: reindex both axes. -/
def reindex_df (df : DF) (index_order columns_order : List String) : DF :=
  reindexAxis1 (reindexAxis0 df index_order) columns_order

/-! ### `plot.bar_plot` y-limit (plot.py lines 55–58) -/

/-- `np.max(np.abs(data))` over a data matrix; NumPy raises on an empty
matrix, modelled as `none`. -/
def npMaxAbs (data : List (List ℚ)) : Option ℚ :=
  match (data.flatMap id).map (fun x => |x|) with
  | [] => none
  | h :: t => some (t.foldl max h)

/-- The y-axis limit `bar_plot` computes before calling
`plt.ylim((-ylim, ylim))`: `max(0.1, np.max(np.abs(data)))`. -/
def bar_plot_ylim (data : List (List ℚ)) : Option ℚ :=
  (npMaxAbs data).map (fun maximum => max (1/10 : ℚ) maximum)

/-! ### Supporting lemmas for the claim theorems -/

theorem assocFind_map_val {α β γ : Type} [DecidableEq α] (l : List (α × β)) (g : β → γ)
    (k : α) :
    assocFind (l.map (fun kv => (kv.1, g kv.2))) k = (assocFind l k).map g := by
  induction l with
  | nil => rfl
  | cons e rest ih =>
    by_cases h : e.1 = k <;> simp [assocFind, h, ih]

/-- An `Option`-threaded `foldl` whose step binds the accumulator absorbs
`none`. -/
theorem foldl_bind_none {γ δ : Type} (g : γ → δ → Option γ) (l : List δ) :
    l.foldl (fun acc d => acc.bind (fun x => g x d)) none = none := by
  induction l with
  | nil => rfl
  | cons d rest ih => simpa using ih

/-! #### `compare_four_metrics` membership lemmas -/

section CompareLemmas

variable {α : Type} (fm : List (FKey × ℚ)) (file_types : List String)
variable (compare_method : List ℚ → List ℚ → α)

/-- The inner fold (over models) of `compare_four_metrics`. -/
def innerCompare (dataset : String) (models : List String)
    (acc : Option (List ((String × String × String) × α))) :
    Option (List ((String × String × String) × α)) :=
  models.foldl
    (fun acc2 model =>
      acc2.bind
        (fun out =>
          (quadEntries fm file_types compare_method dataset model).map
            (fun es => out ++ es)))
    acc

/-- The outer fold (over datasets) of `compare_four_metrics`. -/
def outerCompare (models datasets : List String)
    (acc : Option (List ((String × String × String) × α))) :
    Option (List ((String × String × String) × α)) :=
  datasets.foldl
    (fun acc dataset => innerCompare fm file_types compare_method dataset models acc)
    acc

/-- If the inner fold produced a value, the accumulator already held one and
the fold only appended to it. -/
theorem innerCompare_shape (dataset : String) (models : List String) :
    ∀ (acc : Option (List ((String × String × String) × α)))
      (out' : List ((String × String × String) × α)),
      innerCompare fm file_types compare_method dataset models acc = some out' →
      ∃ out tail, acc = some out ∧ out' = out ++ tail := by
  induction models with
  | nil =>
    intro acc out' h
    exact ⟨out', [], by simpa [innerCompare] using h, by simp⟩
  | cons model rest ih =>
    intro acc out' h
    unfold innerCompare at h
    simp only [List.foldl_cons] at h
    rcases ih _ _ h with ⟨mid, tail, hmid, hout⟩
    cases acc with
    | none => simp at hmid
    | some out =>
      cases hq : quadEntries fm file_types compare_method dataset model with
      | none => rw [hq] at hmid; simp at hmid
      | some es =>
        rw [hq] at hmid
        simp at hmid
        refine ⟨out, es ++ tail, rfl, ?_⟩
        rw [hout, ← hmid, List.append_assoc]

/-- Entries emitted for `(dataset, model)` end up in the inner fold's output. -/
theorem innerCompare_mem (dataset model : String) (models : List String) :
    ∀ (out out' es : List ((String × String × String) × α)),
      model ∈ models →
      quadEntries fm file_types compare_method dataset model = some es →
      innerCompare fm file_types compare_method dataset models (some out) = some out' →
      ∀ e ∈ es, e ∈ out' := by
  induction models with
  | nil =>
    intro out out' es hmem
    cases hmem
  | cons m rest ih =>
    intro out out' es hmem hq h e he
    unfold innerCompare at h
    simp only [List.foldl_cons] at h
    rcases List.mem_cons.mp hmem with hm | hm
    · subst hm
      rw [hq] at h
      simp only [Option.some_bind, Option.map_some'] at h
      rcases innerCompare_shape fm file_types compare_method dataset rest _ _ h with
        ⟨mid, tail, hmid, hout⟩
      injection hmid with hmid'
      rw [hout, ← hmid']
      exact List.mem_append_left _ (List.mem_append_right _ he)
    · cases hq' : quadEntries fm file_types compare_method dataset m with
      | none =>
        rw [hq'] at h
        simp only [Option.some_bind, Option.map_none'] at h
        rcases innerCompare_shape fm file_types compare_method dataset rest _ _ h with
          ⟨mid, _, hmid, _⟩
        simp at hmid
      | some es' =>
        rw [hq'] at h
        simp only [Option.some_bind, Option.map_some'] at h
        exact ih (out ++ es') out' es hm hq h e he

/-- If the outer fold produced a value, the accumulator already held one and
the fold only appended to it. -/
theorem outerCompare_shape (models : List String) (datasets : List String) :
    ∀ (acc : Option (List ((String × String × String) × α)))
      (out' : List ((String × String × String) × α)),
      outerCompare fm file_types compare_method models datasets acc = some out' →
      ∃ out tail, acc = some out ∧ out' = out ++ tail := by
  induction datasets with
  | nil =>
    intro acc out' h
    exact ⟨out', [], by simpa [outerCompare] using h, by simp⟩
  | cons dataset rest ih =>
    intro acc out' h
    unfold outerCompare at h
    simp only [List.foldl_cons] at h
    rcases ih _ _ h with ⟨mid, tail, hmid, hout⟩
    rcases innerCompare_shape fm file_types compare_method dataset models _ _ hmid with
      ⟨out, tail₂, hacc, hmid₂⟩
    exact ⟨out, tail₂ ++ tail, hacc, by rw [hout, hmid₂, List.append_assoc]⟩

/-- Entries emitted for `(dataset, model)` end up in
`compare_four_metrics`' output. -/
theorem outerCompare_mem (models : List String) (datasets : List String) :
    ∀ (dataset model : String)
      (out out' es : List ((String × String × String) × α)),
      dataset ∈ datasets →
      model ∈ models →
      quadEntries fm file_types compare_method dataset model = some es →
      outerCompare fm file_types compare_method models datasets (some out) = some out' →
      ∀ e ∈ es, e ∈ out' := by
  induction datasets with
  | nil =>
    intro dataset model out out' es hd
    cases hd
  | cons d rest ih =>
    intro dataset model out out' es hd hm hq h e he
    unfold outerCompare at h
    simp only [List.foldl_cons] at h
    rcases List.mem_cons.mp hd with hdd | hdd
    · subst hdd
      rcases outerCompare_shape fm file_types compare_method models rest _ _ h with
        ⟨mid, tail, hmid, hout⟩
      have := innerCompare_mem fm file_types compare_method dataset model models
        out mid es hm hq hmid e he
      rw [hout]
      exact List.mem_append_left _ this
    · cases hmid : innerCompare fm file_types compare_method d models (some out) with
      | none =>
        rw [hmid] at h
        rcases outerCompare_shape fm file_types compare_method models rest _ _ h with
          ⟨mid, _, hmid₂, _⟩
        simp at hmid₂
      | some mid =>
        rw [hmid] at h
        exact ih dataset model mid out' es hdd hm hq h e he

end CompareLemmas

theorem compare_four_metrics_eq_outer {α : Type} (fm : List (FKey × ℚ))
    (file_types : List String) (compare_method : List ℚ → List ℚ → α) :
    compare_four_metrics fm file_types compare_method =
      outerCompare fm file_types compare_method
        (dedupFirst (fm.map (fun e => e.1.model)))
        (dedupFirst (fm.map (fun e => e.1.dataset))) (some []) := rfl

/-- A successful `.loc` selection certifies that the dataset and the model
occur in the table. -/
theorem fmLoc_mem (fm : List (FKey × ℚ)) (dataset model train test : String)
    (l : List ℚ) (h : fmLoc fm dataset model train test = some l) :
    dataset ∈ fm.map (fun e => e.1.dataset) ∧ model ∈ fm.map (fun e => e.1.model) := by
  unfold fmLoc at h
  by_cases he : (fm.filterMap
      (fun e =>
        if e.1.dataset = dataset ∧ e.1.model = model ∧ e.1.train_file = train ∧
            e.1.test_file = test then
          some e.2
        else none)).isEmpty
  · simp [he] at h
  · have hne : fm.filterMap
        (fun e =>
          if e.1.dataset = dataset ∧ e.1.model = model ∧ e.1.train_file = train ∧
              e.1.test_file = test then
            some e.2
          else none) ≠ [] := by
      intro hnil
      rw [hnil] at he
      exact he rfl
    rcases List.exists_mem_of_ne_nil _ hne with ⟨v, hv⟩
    rcases List.mem_filterMap.mp hv with ⟨e, hefm, hecond⟩
    by_cases hc : e.1.dataset = dataset ∧ e.1.model = model ∧ e.1.train_file = train ∧
        e.1.test_file = test
    · exact ⟨List.mem_map.mpr ⟨e, hefm, hc.1⟩, List.mem_map.mpr ⟨e, hefm, hc.2.1⟩⟩
    · simp [hc] at hecond

/-- Unfolding `quadEntries` on four successful quadrant selections. -/
theorem quadEntries_of_loc {α : Type} (fm : List (FKey × ℚ)) (t0 t1 : String)
    (compare_method : List ℚ → List ℚ → α) (dataset model : String)
    (a b c d : List ℚ)
    (ha : fmLoc fm dataset model t0 t0 = some a)
    (hb : fmLoc fm dataset model t0 t1 = some b)
    (hc : fmLoc fm dataset model t1 t0 = some c)
    (hd : fmLoc fm dataset model t1 t1 = some d) :
    quadEntries fm [t0, t1] compare_method dataset model =
      some
        [((dataset, model, "AB"), compare_method a b),
         ((dataset, model, "CD"), compare_method c d),
         ((dataset, model, "AC"), compare_method a c),
         ((dataset, model, "BD"), compare_method b d)] := by
  unfold quadEntries
  simp [List.getD, ha, hb, hc, hd]

/-! #### `compute_difference` lemmas -/

/-- First-match lookup through a key-preserving `filterMap`. -/
theorem assocFind_filterMap_keyed {α β γ : Type} [DecidableEq α]
    (l : List (α × β)) (q : α → Prop) [DecidablePred q] (h : α → β → γ) (k : α) :
    assocFind
        (l.filterMap (fun kv => if q kv.1 then some (kv.1, h kv.1 kv.2) else none)) k =
      if q k then (assocFind l k).map (h k) else none := by
  induction l with
  | nil => simp [assocFind]
  | cons e rest ih =>
    by_cases hq : q e.1
    · by_cases hk : e.1 = k
      · subst hk
        simp [List.filterMap_cons, hq, assocFind]
      · simp [List.filterMap_cons, hq, assocFind, hk, ih]
    · by_cases hk : e.1 = k
      · subst hk
        simp [List.filterMap_cons, hq, assocFind, ih]
      · simp [List.filterMap_cons, hq, assocFind, hk, ih]

/-- Keys surviving a key-preserving `filterMap` are the keys passing the
filter. -/
theorem map_fst_filterMap_keyed {α β γ : Type}
    (l : List (α × β)) (q : α → Prop) [DecidablePred q] (h : α → β → γ) :
    (l.filterMap (fun kv => if q kv.1 then some (kv.1, h kv.1 kv.2) else none)).map
        Prod.fst =
      (l.filter (fun kv => q kv.1)).map Prod.fst := by
  induction l with
  | nil => rfl
  | cons e rest ih =>
    by_cases hq : q e.1 <;> simp [List.filterMap_cons, List.filter_cons, hq, ih]

/-- The characterisation of `compute_difference`'s fold when every non-dirty
entry of the suffix being folded has its dirty baseline in `evaluation`. -/
theorem compute_difference_foldl (evaluation : List ((String × String × String) × ℚ))
    (l : List ((String × String × String) × ℚ)) :
    ∀ (out : List ((String × String × String) × ℚ)),
      (∀ kv ∈ l, kv.1.2.1 ≠ "dirty" →
        (assocFind evaluation (kv.1.1, "dirty", kv.1.2.2)).isSome) →
      l.foldl
          (fun acc kv =>
            acc.bind
              (fun out =>
                if kv.1.2.1 = "dirty" then some out
                else
                  (assocFind evaluation (kv.1.1, "dirty", kv.1.2.2)).map
                    (fun d => out ++ [(kv.1, (kv.2 - d) / d)])))
          (some out) =
        some
          (out ++
            l.filterMap
              (fun kv =>
                if kv.1.2.1 = "dirty" then none
                else
                  (assocFind evaluation (kv.1.1, "dirty", kv.1.2.2)).map
                    (fun d => (kv.1, (kv.2 - d) / d)))) := by
  induction l with
  | nil =>
    intro out _
    simp
  | cons kv rest ih =>
    intro out hbase
    simp only [List.foldl_cons, Option.some_bind, List.filterMap_cons]
    by_cases hd : kv.1.2.1 = "dirty"
    · rw [if_pos hd, if_pos hd]
      exact ih out (fun kv' h' => hbase kv' (List.mem_cons_of_mem _ h'))
    · rw [if_neg hd, if_neg hd]
      have hs := hbase kv (List.mem_cons_self _ _) hd
      rcases Option.isSome_iff_exists.mp hs with ⟨dval, hdval⟩
      rw [hdval]
      simp only [Option.map_some']
      rw [ih (out ++ [(kv.1, (kv.2 - dval) / dval)])
        (fun kv' h' => hbase kv' (List.mem_cons_of_mem _ h'))]
      simp

/-- `compute_difference` under the dirty-baseline hypothesis: the output is
the non-dirty entries with values replaced by relative change. -/
theorem compute_difference_spec (evaluation : List ((String × String × String) × ℚ))
    (hbase : ∀ kv ∈ evaluation, kv.1.2.1 ≠ "dirty" →
      (assocFind evaluation (kv.1.1, "dirty", kv.1.2.2)).isSome) :
    compute_difference evaluation =
      some
        (evaluation.filterMap
          (fun kv =>
            if kv.1.2.1 = "dirty" then none
            else
              (assocFind evaluation (kv.1.1, "dirty", kv.1.2.2)).map
                (fun d => (kv.1, (kv.2 - d) / d)))) := by
  unfold compute_difference
  rw [compute_difference_foldl evaluation evaluation [] hbase]
  simp

/-- If some non-dirty entry lacks its dirty baseline, `compute_difference`
fails as a whole. -/
theorem compute_difference_fails (evaluation : List ((String × String × String) × ℚ))
    (l : List ((String × String × String) × ℚ)) :
    ∀ (out : List ((String × String × String) × ℚ)),
      (∃ kv ∈ l, kv.1.2.1 ≠ "dirty" ∧
        assocFind evaluation (kv.1.1, "dirty", kv.1.2.2) = none) →
      l.foldl
          (fun acc kv =>
            acc.bind
              (fun out =>
                if kv.1.2.1 = "dirty" then some out
                else
                  (assocFind evaluation (kv.1.1, "dirty", kv.1.2.2)).map
                    (fun d => out ++ [(kv.1, (kv.2 - d) / d)])))
          (some out) =
        none := by
  induction l with
  | nil =>
    intro out h
    rcases h with ⟨kv, hkv, -⟩
    cases hkv
  | cons kv rest ih =>
    intro out h
    simp only [List.foldl_cons, Option.some_bind]
    rcases h with ⟨kv', hkv', hnd, hnone⟩
    rcases List.mem_cons.mp hkv' with hh | hh
    · subst hh
      rw [if_neg hnd, hnone]
      simp only [Option.map_none']
      exact foldl_bind_none _ rest
    · by_cases hd : kv.1.2.1 = "dirty"
      · rw [if_pos hd]
        exact ih out ⟨kv', hh, hnd, hnone⟩
      · rw [if_neg hd]
        cases hb : assocFind evaluation (kv.1.1, "dirty", kv.1.2.2) with
        | none =>
          simp only [Option.map_none']
          exact foldl_bind_none _ rest
        | some dval =>
          simp only [Option.map_some']
          exact ih _ ⟨kv', hh, hnd, hnone⟩

/-! #### `get_four_metrics` failure-propagation lemmas -/

/-- If some required test-file metric is missing from the entry's metric
dictionary, the inner fold of `get_four_metrics` fails. -/
theorem gfm_inner_fails (registry : List Dataset) (kv : RKey × List (String × ℚ)) :
    ∀ (tfs : List String) (out : List (FKey × ℚ)),
      (∃ tf ∈ tfs, ∃ mn, get_metric_name registry kv.1.dataset tf = some mn ∧
        assocFind kv.2 mn = none) →
      tfs.foldl
          (fun acc2 test_file =>
            acc2.bind
              (fun out2 =>
                (get_metric_name registry kv.1.dataset test_file).bind
                  (fun metric_name =>
                    (assocFind kv.2 metric_name).map
                      (fun metric =>
                        out2 ++
                          [(⟨kv.1.dataset, kv.1.split_seed, kv.1.train_file,
                              kv.1.model, test_file⟩, metric)]))))
          (some out) =
        none := by
  intro tfs
  induction tfs with
  | nil =>
    intro out h
    rcases h with ⟨tf, htf, -⟩
    cases htf
  | cons tf rest ih =>
    intro out h
    simp only [List.foldl_cons, Option.some_bind]
    rcases h with ⟨tf', htf', mn', hmn', hnone'⟩
    rcases List.mem_cons.mp htf' with hh | hh
    · subst hh
      rw [hmn']
      simp only [Option.some_bind, hnone', Option.map_none']
      exact foldl_bind_none _ rest
    · cases hmn : get_metric_name registry kv.1.dataset tf with
      | none =>
        simp only [Option.none_bind]
        exact foldl_bind_none _ rest
      | some mn =>
        simp only [Option.some_bind]
        cases hfind : assocFind kv.2 mn with
        | none =>
          simp only [Option.map_none']
          exact foldl_bind_none _ rest
        | some metric =>
          simp only [Option.map_some']
          exact ih _ ⟨tf', hh, mn', hmn', hnone'⟩

/-- If some entry matching the error type and file types lacks a required
metric, `get_four_metrics` fails as a whole. -/
theorem gfm_fails (registry : List Dataset) (error_type : String)
    (file_types : List String) :
    ∀ (rs : List (RKey × List (String × ℚ))) (out : List (FKey × ℚ)),
      (∃ kv ∈ rs, (kv.1.error = error_type ∧ kv.1.train_file ∈ file_types) ∧
        ∃ tf ∈ file_types, ∃ mn, get_metric_name registry kv.1.dataset tf = some mn ∧
          assocFind kv.2 mn = none) →
      rs.foldl
          (fun acc kv =>
            acc.bind
              (fun out =>
                if kv.1.error = error_type ∧ kv.1.train_file ∈ file_types then
                  file_types.foldl
                    (fun acc2 test_file =>
                      acc2.bind
                        (fun out2 =>
                          (get_metric_name registry kv.1.dataset test_file).bind
                            (fun metric_name =>
                              (assocFind kv.2 metric_name).map
                                (fun metric =>
                                  out2 ++
                                    [(⟨kv.1.dataset, kv.1.split_seed, kv.1.train_file,
                                        kv.1.model, test_file⟩, metric)]))))
                    (some out)
                else some out))
          (some out) =
        none := by
  intro rs
  induction rs with
  | nil =>
    intro out h
    rcases h with ⟨kv, hkv, -⟩
    cases hkv
  | cons kv rest ih =>
    intro out h
    simp only [List.foldl_cons, Option.some_bind]
    rcases h with ⟨kv', hkv', hmatch', hfail'⟩
    rcases List.mem_cons.mp hkv' with hh | hh
    · subst hh
      rw [if_pos hmatch']
      rw [gfm_inner_fails registry kv' file_types out hfail']
      exact foldl_bind_none _ rest
    · by_cases hm : kv.1.error = error_type ∧ kv.1.train_file ∈ file_types
      · rw [if_pos hm]
        cases hstep : file_types.foldl
            (fun acc2 test_file =>
              acc2.bind
                (fun out2 =>
                  (get_metric_name registry kv.1.dataset test_file).bind
                    (fun metric_name =>
                      (assocFind kv.2 metric_name).map
                        (fun metric =>
                          out2 ++
                            [(⟨kv.1.dataset, kv.1.split_seed, kv.1.train_file,
                                kv.1.model, test_file⟩, metric)]))))
            (some out) with
        | none => exact foldl_bind_none _ rest
        | some out' => exact ih out' ⟨kv', hh, hmatch', hfail'⟩
      · rw [if_neg hm]
        exact ih out ⟨kv', hh, hmatch', hfail'⟩

/-! #### Table-reindexing lemmas -/

theorem assocFind_filter_row (data : List ((String × String) × ℚ)) (ro : List String)
    (r c : String) :
    assocFind (data.filter (fun e => e.1.1 ∈ ro)) (r, c) =
      if r ∈ ro then assocFind data (r, c) else none := by
  induction data with
  | nil => simp [assocFind]
  | cons e rest ih =>
    by_cases hp : e.1.1 ∈ ro
    · by_cases hk : e.1 = (r, c)
      · have hr : r ∈ ro := by
          have : e.1.1 = r := by rw [hk]
          exact this ▸ hp
        simp [List.filter_cons, hp, assocFind, hk, hr]
      · simp [List.filter_cons, hp, assocFind, hk, ih]
    · by_cases hk : e.1 = (r, c)
      · have hr : r ∉ ro := by
          have : e.1.1 = r := by rw [hk]
          exact this ▸ hp
        simp [List.filter_cons, hp, assocFind, hk, ih, hr]
      · simp [List.filter_cons, hp, assocFind, hk, ih]

theorem assocFind_filter_col (data : List ((String × String) × ℚ)) (co : List String)
    (r c : String) :
    assocFind (data.filter (fun e => e.1.2 ∈ co)) (r, c) =
      if c ∈ co then assocFind data (r, c) else none := by
  induction data with
  | nil => simp [assocFind]
  | cons e rest ih =>
    by_cases hp : e.1.2 ∈ co
    · by_cases hk : e.1 = (r, c)
      · have hcc : c ∈ co := by
          have : e.1.2 = c := by rw [hk]
          exact this ▸ hp
        simp [List.filter_cons, hp, assocFind, hk, hcc]
      · simp [List.filter_cons, hp, assocFind, hk, ih]
    · by_cases hk : e.1 = (r, c)
      · have hcc : c ∉ co := by
          have : e.1.2 = c := by rw [hk]
          exact this ▸ hp
        simp [List.filter_cons, hp, assocFind, hk, ih, hcc]
      · simp [List.filter_cons, hp, assocFind, hk, ih]

theorem dfCell_reindex_df (df : DF) (ro co : List String) (r c : String) :
    dfCell (reindex_df df ro co) r c =
      if r ∈ ro ∧ c ∈ co then dfCell df r c else none := by
  show assocFind ((df.data.filter (fun e => e.1.1 ∈ ro)).filter
      (fun e => e.1.2 ∈ co)) (r, c) = _
  rw [assocFind_filter_col, assocFind_filter_row]
  by_cases hr : r ∈ ro <;> by_cases hc : c ∈ co <;> simp [hr, hc, dfCell]

/-! #### Maximum-fold lemmas for the bar-plot y-limit -/

theorem foldl_max_bounds (l : List ℚ) :
    ∀ (init : ℚ), init ≤ l.foldl max init ∧ ∀ x ∈ l, x ≤ l.foldl max init := by
  induction l with
  | nil =>
    intro init
    exact ⟨le_refl _, by simp⟩
  | cons h t ih =>
    intro init
    constructor
    · exact le_trans (le_max_left init h) (ih (max init h)).1
    · intro x hx
      rcases List.mem_cons.mp hx with hh | hh
      · subst hh
        exact le_trans (le_max_right init x) (ih (max init x)).1
      · exact (ih (max init h)).2 x hh

/-! #### Mean-reduction lemmas -/

theorem findReduced_reduce_by_mean (result : GStore) (k : List String) (m : String) :
    findReduced (reduce_by_mean result) k m = (findMetric result k m).map npMean := by
  unfold findReduced reduce_by_mean findMetric
  rw [assocFind_map_val result (fun ml => ml.map (fun p => (p.1, npMean p.2))) k]
  cases hml : assocFind result k with
  | none => rfl
  | some ml =>
    simp only [Option.map_some', Option.some_bind]
    exact assocFind_map_val ml npMean m

/-! ## Claim theorems -/

/-- C3 (amended): `group(result, idx)` returns a mapping whose keys are
exactly the input keys with component `idx` removed (entries differing only in
component `idx` share an output key); each metric name other than
`best_params` and `seeds` maps to the list of its values collected across the
removed component — ordered by seed block (the deduplicated removed-component
values in modelled set order, encounter order within a block), not by global
encounter order — and `best_params` and `seeds` never appear in the output. -/
theorem c3_group_spec (result : List (String × List (String × ℚ))) (idx n : Nat)
    (harity : ∀ kv ∈ result, (splitSlash kv.1).length = n) (hidx : idx < n) :
    (∀ K : List String,
      K ∈ (group result idx).map Prod.fst ↔ ∃ kv ∈ result, keyDrop kv.1 idx = K) ∧
    (∀ (K : List String) (m : String), m ∉ excludedMetrics →
      findMetric (group result idx) K m =
        if groupSpecVals result idx K m = [] then none
        else some (groupSpecVals result idx K m)) ∧
    (∀ (K : List String) (m : String), m ∈ excludedMetrics →
      findMetric (group result idx) K m = none) := by
  refine ⟨?_, ?_, ?_⟩
  · intro K
    rw [group_eq_foldl_ops, mem_keys_foldl, mem_opKey_groupOps]
    simp
  · intro K m hm
    rw [group_eq_foldl_ops, findMetric_foldl, valsIn_groupOps result idx K m hm]
    by_cases h : groupSpecVals result idx K m = [] <;>
      simp [h, findMetric, assocFind]
  · intro K m hm
    rw [group_eq_foldl_ops, findMetric_foldl, excluded_valsIn_groupOps result idx K m hm]
    simp [findMetric, assocFind]

/-- C3 counterexample: with entries encountered in the order
`"q/b" ↦ {m: 1}`, `"p/a" ↦ {m: 2}`, `"p/b" ↦ {m: 3}` and grouping component 1,
the group `["p"]` receives its values in seed-block order `[3, 2]` (the seed
set lists `"b"` before `"a"`), not in the entries' encounter order `[2, 3]`. -/
theorem c3_group_counterexample :
    findMetric (group [("q/b", [("m", 1)]), ("p/a", [("m", 2)]), ("p/b", [("m", 3)])] 1)
        ["p"] "m" = some [3, 2] ∧
    findMetric (group [("q/b", [("m", 1)]), ("p/a", [("m", 2)]), ("p/b", [("m", 3)])] 1)
        ["p"] "m" ≠ some [2, 3] := by
  constructor <;> decide

/-- C3 witness: the amended specification evaluated on a concrete input. -/
theorem c3_group_witness :
    findMetric (group [("a/x", [("acc", 1)]), ("a/y", [("acc", 2)])] 1) ["a"] "acc" =
      some [1, 2] := by
  have h := (c3_group_spec [("a/x", [("acc", 1)]), ("a/y", [("acc", 2)])] 1 2
    (by decide) (by decide)).2.1 ["a"] "acc" (by decide)
  rw [h]
  decide

/-- C4: `reduce_by_mean` keeps exactly the keys of the grouped result (same
list of keys, hence equal cardinality) and replaces every metric's list by its
arithmetic mean, sum divided by length — exactly, in rational arithmetic. -/
theorem c4_reduce_by_mean_spec (result : GStore)
    (hne : ∀ kv ∈ result, ∀ p ∈ kv.2, p.2 ≠ []) :
    (reduce_by_mean result).map Prod.fst = result.map Prod.fst ∧
    (reduce_by_mean result).length = result.length ∧
    ∀ (k : List String) (m : String) (l : List ℚ),
      findMetric result k m = some l →
      findReduced (reduce_by_mean result) k m = some (l.sum / l.length) := by
  refine ⟨?_, ?_, fun k m l hl => ?_⟩
  · simp [reduce_by_mean]
  · simp [reduce_by_mean]
  · rw [findReduced_reduce_by_mean, hl]
    rfl

/-- C4 witness: the mean of `[1, 2]` under the key `["a"]`, metric `"m"`. -/
theorem c4_reduce_by_mean_witness :
    findReduced (reduce_by_mean [(["a"], [("m", [1, 2])])]) ["a"] "m" =
      some (3 / 2 : ℚ) := by
  have h := (c4_reduce_by_mean_spec [(["a"], [("m", [1, 2])])] (by decide)).2.2
    ["a"] "m" [1, 2] rfl
  rw [h]
  norm_num

/-- C5: `t_test(a, b)` hands `ttest_rel` exactly the prefixes of length
`min (len a) (len b)` of each sequence, so appending trailing elements to the
longer sequence never changes the result, and for lengths 5 and 3 only the
first 3 paired elements are used. -/
theorem c5_t_test_truncation :
    (∀ (f : List ℚ → List ℚ → ℚ × ℚ) (a b : List ℚ),
      t_test f a b =
        f (a.take (min a.length b.length)) (b.take (min a.length b.length))) ∧
    (∀ (f : List ℚ → List ℚ → ℚ × ℚ) (a b extra : List ℚ), b.length ≤ a.length →
      t_test f (a ++ extra) b = t_test f a b) ∧
    (∀ (f : List ℚ → List ℚ → ℚ × ℚ) (a b : List ℚ),
      a.length = 5 → b.length = 3 → t_test f a b = f (a.take 3) (b.take 3)) := by
  refine ⟨fun f a b => rfl, fun f a b extra hba => ?_, fun f a b ha hb => ?_⟩
  · have hmin1 : min (a ++ extra).length b.length = b.length := by
      rw [List.length_append]; omega
    have hmin2 : min a.length b.length = b.length := by omega
    show f ((a ++ extra).take (min (a ++ extra).length b.length))
        (b.take (min (a ++ extra).length b.length)) =
      f (a.take (min a.length b.length)) (b.take (min a.length b.length))
    rw [hmin1, hmin2, List.take_append_of_le_length hba]
  · show f (a.take (min a.length b.length)) (b.take (min a.length b.length)) =
      f (a.take 3) (b.take 3)
    rw [ha, hb]
    norm_num

/-- C5 witness: with lengths 5 and 3 only the first 3 elements of each
sequence reach the paired test. -/
theorem c5_t_test_witness :
    t_test (fun x y => (x.sum, y.sum)) [1, 2, 3, 4, 5] [9, 9, 9] = (6, 27) := by
  have h := c5_t_test_truncation.2.2 (fun x y => (x.sum, y.sum))
    [1, 2, 3, 4, 5] [9, 9, 9] (by decide) (by decide)
  rw [h]
  norm_num [List.take, List.sum_cons, List.sum_nil]

/-- C7 (amended): `reindex_df` never raises for requested labels that are
absent from the table; it returns the table with axes exactly the requested
orders, in which a requested position keeps its original cell when both labels
existed and reads as missing (NaN) otherwise. -/
theorem c7_reindex_df_total (df : DF) (ro co : List String) :
    (reindex_df df ro co).rows = ro ∧ (reindex_df df ro co).cols = co ∧
    ∀ r c, dfCell (reindex_df df ro co) r c =
      if r ∈ ro ∧ c ∈ co then dfCell df r c else none :=
  ⟨rfl, rfl, fun r c => dfCell_reindex_df df ro co r c⟩

/-- C7 counterexample: requesting the absent row label "r2" does not raise:
`reindex_df` returns a well-defined table whose "r2" row is all-missing (NaN)
while the present row keeps its value — the partial, NaN-filled output the
claim says cannot happen. -/
theorem c7_reindex_df_counterexample :
    reindex_df ⟨["r1"], ["c1"], [(("r1", "c1"), 5)]⟩ ["r1", "r2"] ["c1"] =
      ⟨["r1", "r2"], ["c1"], [(("r1", "c1"), 5)]⟩ ∧
    dfCell (reindex_df ⟨["r1"], ["c1"], [(("r1", "c1"), 5)]⟩ ["r1", "r2"] ["c1"])
        "r2" "c1" = none ∧
    dfCell (reindex_df ⟨["r1"], ["c1"], [(("r1", "c1"), 5)]⟩ ["r1", "r2"] ["c1"])
        "r1" "c1" = some 5 := by
  refine ⟨?_, ?_, ?_⟩ <;> decide

/-- C8: for a well-formed table, reindexing both axes by permutations of the
existing labels and then reindexing by the original orders restores the
original table exactly — same cells, same row and column ordering. -/
theorem c8_reindex_df_roundtrip (df : DF) (ro co : List String) (hwf : DFwf df)
    (hro : ro.Perm df.rows) (hco : co.Perm df.cols) :
    reindex_df (reindex_df df ro co) df.rows df.cols = df := by
  have hrow : ∀ e ∈ df.data, e.1.1 ∈ ro := fun e he => hro.mem_iff.mpr (hwf e he).1
  have hcol : ∀ e ∈ df.data, e.1.2 ∈ co := fun e he => hco.mem_iff.mpr (hwf e he).2
  have h1 : df.data.filter (fun e => e.1.1 ∈ ro) = df.data :=
    List.filter_eq_self.mpr (fun e he => by simpa using hrow e he)
  have h2 : df.data.filter (fun e => e.1.2 ∈ co) = df.data :=
    List.filter_eq_self.mpr (fun e he => by simpa using hcol e he)
  have h3 : df.data.filter (fun e => e.1.1 ∈ df.rows) = df.data :=
    List.filter_eq_self.mpr (fun e he => by simpa using (hwf e he).1)
  have h4 : df.data.filter (fun e => e.1.2 ∈ df.cols) = df.data :=
    List.filter_eq_self.mpr (fun e he => by simpa using (hwf e he).2)
  simp only [reindex_df, reindexAxis0, reindexAxis1]
  rw [h1, h2, h3, h4]

/-- C8 witness: a concrete 2×2 table round-trips through a reversal of both
label orders. -/
theorem c8_reindex_df_witness :
    reindex_df
        (reindex_df
          ⟨["r1", "r2"], ["c1", "c2"], [(("r1", "c1"), 1), (("r2", "c2"), 2)]⟩
          ["r2", "r1"] ["c2", "c1"])
        ["r1", "r2"] ["c1", "c2"] =
      ⟨["r1", "r2"], ["c1", "c2"], [(("r1", "c1"), 1), (("r2", "c2"), 2)]⟩ :=
  c8_reindex_df_roundtrip
    ⟨["r1", "r2"], ["c1", "c2"], [(("r1", "c1"), 1), (("r2", "c2"), 2)]⟩
    ["r2", "r1"] ["c2", "c1"] (by unfold DFwf; decide) (by decide) (by decide)

/-- C9: whenever `bar_plot` computes a y-limit, that limit is at least 0.1 and
at least the absolute value of every cell of the data matrix. -/
theorem c9_bar_plot_ylim_bounds (data : List (List ℚ)) (lim : ℚ)
    (h : bar_plot_ylim data = some lim) :
    1 / 10 ≤ lim ∧ ∀ row ∈ data, ∀ x ∈ row, |x| ≤ lim := by
  unfold bar_plot_ylim npMaxAbs at h
  cases hflat : (data.flatMap id).map (fun x => |x|) with
  | nil =>
    rw [hflat] at h
    simp at h
  | cons h0 t =>
    rw [hflat] at h
    simp only [Option.map_some'] at h
    injection h with h'
    constructor
    · rw [← h']
      exact le_max_left _ _
    · intro row hrow x hx
      have hmem : |x| ∈ (data.flatMap id).map (fun x => |x|) :=
        List.mem_map.mpr ⟨x, List.mem_flatMap.mpr ⟨row, hrow, hx⟩, rfl⟩
      rw [hflat] at hmem
      rw [← h']
      rcases List.mem_cons.mp hmem with hh | hh
      · rw [hh]
        exact le_trans (foldl_max_bounds t h0).1 (le_max_right _ _)
      · exact le_trans ((foldl_max_bounds t h0).2 _ hh) (le_max_right _ _)

/-- C9 witness: the y-limit of the matrix `[[2, -3]]` is 3 and bounds every
cell. -/
theorem c9_bar_plot_ylim_witness :
    (1 : ℚ) / 10 ≤ 3 ∧ ∀ row ∈ [[(2 : ℚ), -3]], ∀ x ∈ row, |x| ≤ 3 :=
  c9_bar_plot_ylim_bounds [[2, -3]] 3
    (by norm_num [bar_plot_ylim, npMaxAbs, List.flatMap])

/-- C10: a known dataset whose metadata record lacks the `class_imbalance`
key entirely is treated as not class-imbalanced by `table.get_metric_name` and
its duplicate `plot.get_metric`: both return `{test_file}_test_acc`, never a
lookup failure. -/
theorem c10_absent_imbalance_flag (registry : List Dataset)
    (dataset_name test_file : String) (d : Dataset)
    (hd : get_dataset registry dataset_name = some d)
    (hflag : d.class_imbalance = none) :
    get_metric_name registry dataset_name test_file =
      some (test_file ++ "_test_acc") ∧
    Plot.get_metric registry dataset_name test_file =
      some (test_file ++ "_test_acc") := by
  constructor <;>
    simp [get_metric_name, Plot.get_metric, is_metric_f1, Plot.is_metric_f1, hd, hflag]

/-- C10 witness: a registry entry without the flag yields the accuracy metric
name in both implementations. -/
theorem c10_absent_imbalance_witness :
    get_metric_name [⟨"KDD", none⟩] "KDD" "clean" = some "clean_test_acc" ∧
    Plot.get_metric [⟨"KDD", none⟩] "KDD" "clean" = some "clean_test_acc" :=
  c10_absent_imbalance_flag [⟨"KDD", none⟩] "KDD" "clean" ⟨"KDD", none⟩ rfl rfl

/-- The synthetic four-metrics table of the spec's round-trip property:
A = 0.8, B = 0.6, C = 0.7, D = 0.9 for file types "t0"/"t1". -/
def fm4 : List (FKey × ℚ) :=
  [(⟨"d", "s", "t0", "mo", "t0"⟩, 4 / 5), (⟨"d", "s", "t0", "mo", "t1"⟩, 3 / 5),
   (⟨"d", "s", "t1", "mo", "t0"⟩, 7 / 10), (⟨"d", "s", "t1", "mo", "t1"⟩, 9 / 10)]

/-- `compareMethod = lambda x, y: y - x` acting elementwise on the selected
Series, as pandas evaluates it. -/
def cmpSub : List ℚ → List ℚ → List ℚ :=
  fun x y => List.zipWith (fun p q => q - p) x y

/-- The comparison table `compare_four_metrics` produces on `fm4`, in the
source's insertion order AB, CD, AC, BD. -/
def out4 : List ((String × String × String) × List ℚ) :=
  [(("d", "mo", "AB"), [3 / 5 - 4 / 5]),
   (("d", "mo", "CD"), [9 / 10 - 7 / 10]),
   (("d", "mo", "AC"), [7 / 10 - 4 / 5]),
   (("d", "mo", "BD"), [9 / 10 - 3 / 5])]

/-- C1: `compare_four_metrics` applies the supplied binary `compare_method`
to exactly the ordered quadrant pairs (A,B), (A,C), (C,D), (B,D) — with
A = loc[t0,t0], B = loc[t0,t1], C = loc[t1,t0], D = loc[t1,t1] — and stores
the results under the labels "AB", "AC", "CD", "BD" respectively; in
particular, with A = 0.8, B = 0.6, C = 0.7, D = 0.9 and
`compare_method(x, y) = y - x` it yields exactly AB = -0.2, AC = -0.1,
CD = 0.2, BD = 0.3. -/
theorem c1_compare_four_metrics_quadrants :
    (∀ (α : Type) (fm : List (FKey × ℚ)) (t0 t1 : String)
       (compare_method : List ℚ → List ℚ → α)
       (out : List ((String × String × String) × α)) (dataset model : String)
       (a b c d : List ℚ),
      compare_four_metrics fm [t0, t1] compare_method = some out →
      fmLoc fm dataset model t0 t0 = some a →
      fmLoc fm dataset model t0 t1 = some b →
      fmLoc fm dataset model t1 t0 = some c →
      fmLoc fm dataset model t1 t1 = some d →
      ((dataset, model, "AB"), compare_method a b) ∈ out ∧
      ((dataset, model, "AC"), compare_method a c) ∈ out ∧
      ((dataset, model, "CD"), compare_method c d) ∈ out ∧
      ((dataset, model, "BD"), compare_method b d) ∈ out) ∧
    (compare_four_metrics fm4 ["t0", "t1"] cmpSub = some out4 ∧
      (3 : ℚ) / 5 - 4 / 5 = -(1 / 5) ∧ (7 : ℚ) / 10 - 4 / 5 = -(1 / 10) ∧
      (9 : ℚ) / 10 - 7 / 10 = 1 / 5 ∧ (9 : ℚ) / 10 - 3 / 5 = 3 / 10) := by
  constructor
  · intro α fm t0 t1 compare_method out dataset model a b c d hcomp ha hb hc hd
    rw [compare_four_metrics_eq_outer] at hcomp
    have hq := quadEntries_of_loc fm t0 t1 compare_method dataset model a b c d
      ha hb hc hd
    have hds : dataset ∈ dedupFirst (fm.map (fun e => e.1.dataset)) :=
      (mem_dedupFirst _ _).mpr (fmLoc_mem fm dataset model t0 t0 a ha).1
    have hmo : model ∈ dedupFirst (fm.map (fun e => e.1.model)) :=
      (mem_dedupFirst _ _).mpr (fmLoc_mem fm dataset model t0 t0 a ha).2
    have hmemf := outerCompare_mem fm [t0, t1] compare_method
      (dedupFirst (fm.map (fun e => e.1.model)))
      (dedupFirst (fm.map (fun e => e.1.dataset)))
      dataset model [] out _ hds hmo hq hcomp
    exact ⟨hmemf _ (by simp), hmemf _ (by simp), hmemf _ (by simp), hmemf _ (by simp)⟩
  · exact ⟨rfl, by norm_num, by norm_num, by norm_num, by norm_num⟩

/-- C1 witness: the general quadrant property instantiated on the synthetic
table `fm4`. -/
theorem c1_compare_four_metrics_witness :
    (("d", "mo", "AB"), cmpSub [4 / 5] [3 / 5]) ∈ out4 ∧
    (("d", "mo", "AC"), cmpSub [4 / 5] [7 / 10]) ∈ out4 ∧
    (("d", "mo", "CD"), cmpSub [7 / 10] [9 / 10]) ∈ out4 ∧
    (("d", "mo", "BD"), cmpSub [3 / 5] [9 / 10]) ∈ out4 :=
  c1_compare_four_metrics_quadrants.1 (List ℚ) fm4 "t0" "t1" cmpSub out4 "d" "mo"
    [4 / 5] [3 / 5] [7 / 10] [9 / 10]
    c1_compare_four_metrics_quadrants.2.1 rfl rfl rfl rfl

/-- C2: when the evaluation mapping has a `'dirty'` baseline for every
(dataset, model) pair occurring in it, `compute_difference` succeeds and
returns a mapping whose keys are exactly the input keys minus all
method = `'dirty'` keys, and whose value at each remaining key equals
`(value - dirtyValue) / dirtyValue` for the dirty baseline of the same
dataset and model. -/
theorem c2_compute_difference_spec
    (evaluation : List ((String × String × String) × ℚ))
    (hbase : ∀ kv ∈ evaluation,
      (assocFind evaluation (kv.1.1, "dirty", kv.1.2.2)).isSome) :
    ∃ out, compute_difference evaluation = some out ∧
      out.map Prod.fst =
        (evaluation.filter (fun kv => ¬kv.1.2.1 = "dirty")).map Prod.fst ∧
      ∀ (key : String × String × String) (v dval : ℚ),
        assocFind evaluation key = some v → key.2.1 ≠ "dirty" →
        assocFind evaluation (key.1, "dirty", key.2.2) = some dval →
        assocFind out key = some ((v - dval) / dval) := by
  have hbase' : ∀ kv ∈ evaluation, kv.1.2.1 ≠ "dirty" →
      (assocFind evaluation (kv.1.1, "dirty", kv.1.2.2)).isSome :=
    fun kv hkv _ => hbase kv hkv
  have hspec := compute_difference_spec evaluation hbase'
  have hrw : evaluation.filterMap
      (fun kv =>
        if kv.1.2.1 = "dirty" then none
        else
          (assocFind evaluation (kv.1.1, "dirty", kv.1.2.2)).map
            (fun dv => (kv.1, (kv.2 - dv) / dv))) =
      evaluation.filterMap
        (fun kv =>
          if (fun key : String × String × String => ¬key.2.1 = "dirty") kv.1 then
            some (kv.1,
              (fun (key : String × String × String) (v : ℚ) =>
                (v - (assocFind evaluation (key.1, "dirty", key.2.2)).getD 0) /
                  (assocFind evaluation (key.1, "dirty", key.2.2)).getD 0) kv.1 kv.2)
          else none) := by
    apply filterMap_ext
    intro kv hkv
    by_cases hdd : kv.1.2.1 = "dirty"
    · simp [hdd]
    · rcases Option.isSome_iff_exists.mp (hbase kv hkv) with ⟨dval, hdval⟩
      simp [hdd, hdval]
  refine ⟨_, hspec.trans (congrArg some hrw), ?_, ?_⟩
  · exact map_fst_filterMap_keyed evaluation
      (fun key => ¬key.2.1 = "dirty")
      (fun key v =>
        (v - (assocFind evaluation (key.1, "dirty", key.2.2)).getD 0) /
          (assocFind evaluation (key.1, "dirty", key.2.2)).getD 0)
  · intro key v dval hv hnd hdval
    rw [assocFind_filterMap_keyed evaluation
      (fun key : String × String × String => ¬key.2.1 = "dirty")
      (fun key v =>
        (v - (assocFind evaluation (key.1, "dirty", key.2.2)).getD 0) /
          (assocFind evaluation (key.1, "dirty", key.2.2)).getD 0) key]
    rw [if_pos hnd, hv, hdval]
    simp

/-- C2 witness: one dirty baseline 0.5 and one clean value 0.75 give relative
change 0.5, with the dirty key dropped. -/
theorem c2_compute_difference_witness :
    ∃ out,
      compute_difference
          [(("d1", "dirty", "m1"), 1 / 2), (("d1", "clean", "m1"), 3 / 4)] =
        some out ∧
      out.map Prod.fst = [("d1", "clean", "m1")] ∧
      assocFind out ("d1", "clean", "m1") =
        some (((3 : ℚ) / 4 - 1 / 2) / (1 / 2)) := by
  obtain ⟨out, h1, h2, h3⟩ := c2_compute_difference_spec
    [(("d1", "dirty", "m1"), 1 / 2), (("d1", "clean", "m1"), 3 / 4)] (by decide)
  refine ⟨out, h1, ?_, ?_⟩
  · rw [h2]; rfl
  · exact h3 ("d1", "clean", "m1") (3 / 4) (1 / 2) rfl (by decide) rfl

/-- C6: a key absent from the source result mapping is a hard lookup failure
that propagates to the caller: `get_four_metrics` fails as a whole when a
matching entry lacks the required metric, and `compute_difference` fails as a
whole when a non-dirty entry has no dirty baseline; neither substitutes a
default value. -/
theorem c6_lookup_failure_propagates :
    (∀ (registry : List Dataset) (result : List (RKey × List (String × ℚ)))
       (error_type : String) (file_types : List String),
      (∃ kv ∈ result, (kv.1.error = error_type ∧ kv.1.train_file ∈ file_types) ∧
        ∃ tf ∈ file_types, ∃ mn,
          get_metric_name registry kv.1.dataset tf = some mn ∧
          assocFind kv.2 mn = none) →
      get_four_metrics registry result error_type file_types = none) ∧
    (∀ evaluation : List ((String × String × String) × ℚ),
      (∃ kv ∈ evaluation, kv.1.2.1 ≠ "dirty" ∧
        assocFind evaluation (kv.1.1, "dirty", kv.1.2.2) = none) →
      compute_difference evaluation = none) := by
  constructor
  · intro registry result error_type file_types h
    unfold get_four_metrics
    exact gfm_fails registry error_type file_types result [] h
  · intro evaluation h
    unfold compute_difference
    exact compute_difference_fails evaluation evaluation [] h

/-- C6 witness: an entry with only the dirty-test metric fails
`get_four_metrics` for file types dirty/clean, and an evaluation with no
dirty baseline fails `compute_difference`. -/
theorem c6_lookup_failure_witness :
    get_four_metrics [⟨"KDD", none⟩]
        [(⟨"KDD", "s", "duplicates", "dirty", "m1"⟩, [("dirty_test_acc", 1 / 2)])]
        "duplicates" ["dirty", "clean"] = none ∧
    compute_difference [(("d1", "clean", "m1"), (3 : ℚ) / 4)] = none := by
  constructor
  · exact c6_lookup_failure_propagates.1 [⟨"KDD", none⟩]
      [(⟨"KDD", "s", "duplicates", "dirty", "m1"⟩, [("dirty_test_acc", 1 / 2)])]
      "duplicates" ["dirty", "clean"]
      ⟨(⟨"KDD", "s", "duplicates", "dirty", "m1"⟩, [("dirty_test_acc", 1 / 2)]),
        List.mem_cons_self _ _, ⟨rfl, by decide⟩,
        "clean", by decide, "clean_test_acc", rfl, rfl⟩
  · exact c6_lookup_failure_propagates.2 [(("d1", "clean", "m1"), (3 : ℚ) / 4)]
      ⟨(("d1", "clean", "m1"), (3 : ℚ) / 4), List.mem_cons_self _ _,
        by decide, rfl⟩

end CleanML
